import Mathlib

/-!
Verification of the ApolloOS memory-management subsystem.

The definitions below are a shallow embedding of the kernel's Rust sources:

* `os/src/config.rs` — layout constants;
* `os/src/mm/address.rs` — address/page-number conversions (`floor`, `ceil`,
  `page_offset`, the `From` conversions, `VirtPageNum::indexes`);
* `os/src/mm/frame_allocator.rs` — `StackFrameAllocator`, `FrameTracker` and
  the `frame_alloc`/`frame_dealloc` interface;
* `os/src/mm/page_table.rs` — page-table entries and the three-level walk
  (`find_pte`, `find_pte_create`, `map`, `unmap`, `translate`);
* `os/src/mm/memory_set.rs` — `MapArea` bookkeeping and `MemorySet::from_elf`.

Machine integers (`usize`) are embedded as `Nat`; the source's explicit
masking (`& ((1 << W) - 1)`) is carried over verbatim.  A Rust `panic!` or
failed `assert!`/`unwrap` is embedded as an `Option` result of `none`.
Physical memory is a function `Mem : Nat → Nat → Nat`, read at two
granularities mirroring the two raw views in `address.rs`:
`PhysPageNum::get_pte_array` (index < 512, used by the page-table walk) and
`PhysPageNum::get_bytes_array` (index < 4096, used by `FrameTracker::new`).
-/

namespace Apollo

/-! ## Constants (os/src/config.rs, os/src/mm/address.rs) -/

def PAGE_SIZE : Nat := 0x1000

def PAGE_SIZE_BITS : Nat := 0xc

def USER_STACK_SIZE : Nat := 4096 * 2

def MEMORY_END : Nat := 0x80800000

/-- `usize::MAX` on the RV64 target. -/
def USIZE_MAX : Nat := 2 ^ 64 - 1

/-- Highest virtual page: `usize::MAX - PAGE_SIZE + 1`. -/
def TRAMPOLINE : Nat := USIZE_MAX - PAGE_SIZE + 1

/-- Second-highest virtual page: `TRAMPOLINE - PAGE_SIZE`. -/
def TRAP_CONTEXT : Nat := TRAMPOLINE - PAGE_SIZE

def PA_WIDTH_SV39 : Nat := 56

def PPN_WIDTH_SV39 : Nat := PA_WIDTH_SV39 - PAGE_SIZE_BITS

def VA_WIDTH_SV39 : Nat := 39

def VPN_WIDTH_SV39 : Nat := VA_WIDTH_SV39 - PAGE_SIZE_BITS

/-! ## Address types (os/src/mm/address.rs)

`PhysAddr`, `VirtAddr`, `PhysPageNum`, `VirtPageNum` are tuple wrappers over
`usize`; we embed their payloads directly as `Nat` and keep each method. -/

/-- `impl From<usize> for VirtAddr`: keep the low 39 bits. -/
def VirtAddr.from_usize (v : Nat) : Nat := v &&& ((1 <<< VA_WIDTH_SV39) - 1)

/-- `impl From<usize> for PhysAddr`: keep the low 56 bits. -/
def PhysAddr.from_usize (v : Nat) : Nat := v &&& ((1 <<< PA_WIDTH_SV39) - 1)

/-- `impl From<usize> for PhysPageNum`: keep the low 44 bits. -/
def PhysPageNum.from_usize (v : Nat) : Nat := v &&& ((1 <<< PPN_WIDTH_SV39) - 1)

/-- `VirtAddr::floor`. -/
def VirtAddr.floor (va : Nat) : Nat := va / PAGE_SIZE

/-- `VirtAddr::ceil`. -/
def VirtAddr.ceil (va : Nat) : Nat := (va + PAGE_SIZE - 1) / PAGE_SIZE

/-- `VirtAddr::page_offset`. -/
def VirtAddr.page_offset (va : Nat) : Nat := va &&& (PAGE_SIZE - 1)

/-- `impl From<VirtPageNum> for VirtAddr`: `v.0 << PAGE_SIZE_BITS`. -/
def VirtAddr.of_vpn (vpn : Nat) : Nat := vpn <<< PAGE_SIZE_BITS

/-- `PhysAddr::floor`. -/
def PhysAddr.floor (pa : Nat) : Nat := pa / PAGE_SIZE

/-- `PhysAddr::ceil`. -/
def PhysAddr.ceil (pa : Nat) : Nat := (pa + PAGE_SIZE - 1) / PAGE_SIZE

/-- `PhysAddr::page_offset`. -/
def PhysAddr.page_offset (pa : Nat) : Nat := pa &&& (PAGE_SIZE - 1)

/-- `impl From<PhysPageNum> for PhysAddr`: `v.0 << PAGE_SIZE_BITS`. -/
def PhysAddr.of_ppn (ppn : Nat) : Nat := ppn <<< PAGE_SIZE_BITS

/-- `VirtPageNum::indexes`, the three 9-bit table indices of a virtual page
number, high to low.  The source fills `idx[2]`, `idx[1]`, `idx[0]` by
iterating `idx[i] = vpn & 511; vpn >>= 9` for `i = 2, 1, 0`; this is that
loop unrolled. -/
def VirtPageNum.indexes (vpn : Nat) : Nat × Nat × Nat :=
  ((vpn >>> 9 >>> 9) &&& 511, (vpn >>> 9) &&& 511, vpn &&& 511)

/-! ## Bitwise bridge lemmas

The sources express masking and packing with `&`, `|`, `<<`, `>>`; the
lemmas below convert those to `%`, `/`, `*`, `+` so that `omega` can reason
about them. -/

theorem and_shiftLeft_one_sub_one_eq_mod (x n : Nat) :
    x &&& ((1 <<< n) - 1) = x % 2 ^ n := by
  rw [Nat.shiftLeft_eq, one_mul, Nat.and_pow_two_sub_one_eq_mod]

theorem shiftLeft_lor_eq_add {f n : Nat} (p : Nat) (hf : f < 2 ^ n) :
    p <<< n ||| f = p * 2 ^ n + f := by
  apply Nat.eq_of_testBit_eq
  intro i
  rcases lt_or_le i n with hi | hi
  · have h1 : ¬ n ≤ i := by omega
    have h2 : (p * 2 ^ n + f) % 2 ^ n = f := by
      rw [Nat.add_comm, Nat.add_mul_mod_self_right]
      exact Nat.mod_eq_of_lt hf
    have h3 : (p * 2 ^ n + f).testBit i = f.testBit i := by
      have h4 := Nat.testBit_mod_two_pow (p * 2 ^ n + f) n i
      rw [h2] at h4
      simp only [hi, decide_eq_true_eq, if_true, Bool.true_and, decide_True] at h4
      exact h4.symm
    rw [Nat.testBit_lor, Nat.testBit_shiftLeft, h3]
    simp [h1]
  · have h2 : f.testBit i = false :=
      Nat.testBit_lt_two_pow (lt_of_lt_of_le hf (Nat.pow_le_pow_right (by omega) hi))
    have h3 : (p * 2 ^ n + f) >>> n = p := by
      rw [Nat.shiftRight_eq_div_pow, Nat.add_comm,
        Nat.add_mul_div_right _ _ (Nat.pos_pow_of_pos n (by omega)),
        Nat.div_eq_of_lt hf]
      omega
    have h4 : (p * 2 ^ n + f).testBit i = p.testBit (i - n) := by
      conv_lhs => rw [show i = n + (i - n) by omega]
      rw [← Nat.testBit_shiftRight, h3]
    rw [Nat.testBit_lor, Nat.testBit_shiftLeft, h2, h4]
    simp [hi]

theorem shiftLeft_eq_mul (p n : Nat) : p <<< n = p * 2 ^ n := Nat.shiftLeft_eq p n

theorem shiftRight_eq_div (p n : Nat) : p >>> n = p / 2 ^ n := Nat.shiftRight_eq_div_pow p n

theorem and_511_eq_mod (x : Nat) : x &&& 511 = x % 512 := by
  have h : (511 : Nat) = 2 ^ 9 - 1 := by norm_num
  rw [h, Nat.and_pow_two_sub_one_eq_mod]

theorem and_one_eq_mod (x : Nat) : x &&& 1 = x % 2 := by
  have h : (1 : Nat) = 2 ^ 1 - 1 := by norm_num
  conv_lhs => rw [h]
  rw [Nat.and_pow_two_sub_one_eq_mod]

/-! ## C8: address round trips -/

/-- Arithmetic form of `VirtAddr.page_offset` / `PhysAddr.page_offset`. -/
theorem page_offset_eq_mod (va : Nat) : VirtAddr.page_offset va = va % PAGE_SIZE := by
  unfold VirtAddr.page_offset
  have h : (PAGE_SIZE - 1) = 2 ^ 12 - 1 := by norm_num [PAGE_SIZE]
  rw [h, Nat.and_pow_two_sub_one_eq_mod]
  norm_num [PAGE_SIZE]

theorem phys_page_offset_eq_mod (pa : Nat) : PhysAddr.page_offset pa = pa % PAGE_SIZE := by
  unfold PhysAddr.page_offset
  have h : (PAGE_SIZE - 1) = 2 ^ 12 - 1 := by norm_num [PAGE_SIZE]
  rw [h, Nat.and_pow_two_sub_one_eq_mod]
  norm_num [PAGE_SIZE]

/-- C8 [corrected]: the floor round trip holds, but reconstructing from the
`ceil` page number together with the original page offset does not give the
next page boundary.  At the virtual address 1, `ceil` gives page 1, and
recombining that page number with the original offset 1 yields 4097, which
is not a multiple of the page size at all, while the next page boundary
above 1 is 4096. -/
theorem c8_ceil_reconstruction_not_boundary :
    VirtAddr.of_vpn (VirtAddr.ceil 1) ||| VirtAddr.page_offset 1 = 4097 ∧
      4097 % PAGE_SIZE ≠ 0 ∧ VirtAddr.ceil 1 * PAGE_SIZE = 4096 := by
  refine ⟨by decide, by decide, by decide⟩

/-- C8 [amended]: for every physical or virtual address, reconstructing an
address from the `floor` page number and the original page offset recovers
the address; reconstructing from the `ceil` page number alone yields the
next page boundary when the address is not page aligned, and the address
itself when it is aligned. -/
theorem c8_floor_ceil_round_trip (va pa : Nat) :
    (VirtAddr.of_vpn (VirtAddr.floor va) ||| VirtAddr.page_offset va = va) ∧
    (PhysAddr.of_ppn (PhysAddr.floor pa) ||| PhysAddr.page_offset pa = pa) ∧
    (VirtAddr.page_offset va ≠ 0 →
      VirtAddr.of_vpn (VirtAddr.ceil va) = VirtAddr.of_vpn (VirtAddr.floor va) + PAGE_SIZE) ∧
    (VirtAddr.page_offset va = 0 → VirtAddr.of_vpn (VirtAddr.ceil va) = va) ∧
    (PhysAddr.page_offset pa ≠ 0 →
      PhysAddr.of_ppn (PhysAddr.ceil pa) = PhysAddr.of_ppn (PhysAddr.floor pa) + PAGE_SIZE) ∧
    (PhysAddr.page_offset pa = 0 → PhysAddr.of_ppn (PhysAddr.ceil pa) = pa) := by
  have hps : PAGE_SIZE = 2 ^ 12 := by norm_num [PAGE_SIZE]
  have hv : VirtAddr.page_offset va = va % 2 ^ 12 := by rw [page_offset_eq_mod, hps]
  have hp : PhysAddr.page_offset pa = pa % 2 ^ 12 := by rw [phys_page_offset_eq_mod, hps]
  refine ⟨?_, ?_, ?_, ?_, ?_, ?_⟩
  · rw [VirtAddr.of_vpn, hv, PAGE_SIZE_BITS]
    rw [shiftLeft_lor_eq_add _ (Nat.mod_lt _ (by norm_num))]
    show VirtAddr.floor va * 2 ^ 12 + va % 2 ^ 12 = va
    rw [VirtAddr.floor, hps]
    omega
  · rw [PhysAddr.of_ppn, hp, PAGE_SIZE_BITS]
    rw [shiftLeft_lor_eq_add _ (Nat.mod_lt _ (by norm_num))]
    show PhysAddr.floor pa * 2 ^ 12 + pa % 2 ^ 12 = pa
    rw [PhysAddr.floor, hps]
    omega
  · intro h
    rw [hv] at h
    rw [VirtAddr.of_vpn, VirtAddr.of_vpn, VirtAddr.ceil, VirtAddr.floor, PAGE_SIZE_BITS,
      shiftLeft_eq_mul, shiftLeft_eq_mul, hps]
    show (va + 2 ^ 12 - 1) / 2 ^ 12 * 2 ^ 12 = va / 2 ^ 12 * 2 ^ 12 + 2 ^ 12
    omega
  · intro h
    rw [hv] at h
    rw [VirtAddr.of_vpn, VirtAddr.ceil, PAGE_SIZE_BITS, shiftLeft_eq_mul, hps]
    show (va + 2 ^ 12 - 1) / 2 ^ 12 * 2 ^ 12 = va
    omega
  · intro h
    rw [hp] at h
    rw [PhysAddr.of_ppn, PhysAddr.of_ppn, PhysAddr.ceil, PhysAddr.floor, PAGE_SIZE_BITS,
      shiftLeft_eq_mul, shiftLeft_eq_mul, hps]
    show (pa + 2 ^ 12 - 1) / 2 ^ 12 * 2 ^ 12 = pa / 2 ^ 12 * 2 ^ 12 + 2 ^ 12
    omega
  · intro h
    rw [hp] at h
    rw [PhysAddr.of_ppn, PhysAddr.ceil, PAGE_SIZE_BITS, shiftLeft_eq_mul, hps]
    show (pa + 2 ^ 12 - 1) / 2 ^ 12 * 2 ^ 12 = pa
    omega

/-- Witness for `c8_floor_ceil_round_trip` at `va = 5`, `pa = 8192`. -/
theorem c8_floor_ceil_round_trip_witness :
    (VirtAddr.page_offset 5 ≠ 0 ∧
      VirtAddr.of_vpn (VirtAddr.ceil 5) = VirtAddr.of_vpn (VirtAddr.floor 5) + PAGE_SIZE) ∧
    (PhysAddr.page_offset 8192 = 0 ∧ PhysAddr.of_ppn (PhysAddr.ceil 8192) = 8192) := by
  refine ⟨⟨by decide, (c8_floor_ceil_round_trip 5 8192).2.2.1 (by decide)⟩,
    ⟨by decide, (c8_floor_ceil_round_trip 5 8192).2.2.2.2.2 (by decide)⟩⟩

/-! ## Physical memory (os/src/mm/address.rs raw views)

`Mem p i` is the `i`-th cell of physical page `p`.  The page-table code
reads pages through `PhysPageNum::get_pte_array` (512 page-table entries);
`FrameTracker::new` writes pages through `PhysPageNum::get_bytes_array`
(4096 bytes).  Each embedding below fixes one of the two granularities. -/

def Mem : Type := Nat → Nat → Nat

/-- Store `v` into cell `i` of page `p` (a write through one of the raw
slice views). -/
def Mem.write (m : Mem) (p i v : Nat) : Mem :=
  fun q j => if q = p ∧ j = i then v else m q j

/-- `FrameTracker::new`'s page cleaning, at byte granularity: all 4096
bytes of page `p` become 0. -/
def Mem.clearBytes (m : Mem) (p : Nat) : Mem :=
  fun q j => if q = p ∧ j < 4096 then 0 else m q j

/-- `FrameTracker::new`'s page cleaning, seen through `get_pte_array`:
zeroing the 4096 bytes of page `p` makes every page-table entry stored on
it the empty entry. -/
def Mem.clearPtes (m : Mem) (p : Nat) : Mem :=
  fun q j => if q = p then 0 else m q j

/-! ## Frame allocator (os/src/mm/frame_allocator.rs) -/

/-- `StackFrameAllocator`: the interval `[current, endp)` of never-used
frames plus the stack of recycled frames.  Rust's `Vec::push`/`Vec::pop`
operate on the vector's tail; the list `recycled` holds the same stack
with its top at the head. -/
structure StackFrameAllocator where
  current : Nat
  endp : Nat
  recycled : List Nat
deriving DecidableEq

/-- `StackFrameAllocator::alloc`.  `none` means frame exhaustion.  The
returned page number goes through `PhysPageNum::from` (`.into()`), which
masks to 44 bits. -/
def StackFrameAllocator.alloc (a : StackFrameAllocator) :
    Option Nat × StackFrameAllocator :=
  match a.recycled with
  | ppn :: rest => (some (PhysPageNum.from_usize ppn), { a with recycled := rest })
  | [] =>
    if a.current = a.endp then (none, a)
    else
      let cur := a.current + 1
      (some (PhysPageNum.from_usize (cur - 1)), { a with current := cur })

/-- `StackFrameAllocator::dealloc`.  `none` embeds the
`"Frame ppn has not been allocated!"` panic. -/
def StackFrameAllocator.dealloc (a : StackFrameAllocator) (ppn : Nat) :
    Option StackFrameAllocator :=
  if ppn ≥ a.current ∨ ppn ∈ a.recycled then none
  else some { a with recycled := ppn :: a.recycled }

/-- `frame_alloc`: allocate a page number and wrap it in a `FrameTracker`,
whose constructor zeroes the backing page (byte view).  The result carries
the tracker's `ppn` together with the updated allocator and memory. -/
def frame_alloc (a : StackFrameAllocator) (m : Mem) :
    Option (Nat × StackFrameAllocator × Mem) :=
  match a.alloc with
  | (some ppn, a1) => some (ppn, a1, m.clearBytes ppn)
  | (none, _) => none

/-- `frame_alloc` as seen by the page-table layer, where the zeroed page is
read back through `get_pte_array`. -/
def frame_alloc_pte (a : StackFrameAllocator) (m : Mem) :
    Option (Nat × StackFrameAllocator × Mem) :=
  match a.alloc with
  | (some ppn, a1) => some (ppn, a1, m.clearPtes ppn)
  | (none, _) => none

/-- The allocator states arising in the kernel: `init` sets
`current = ekernel.ceil ≤ endp = MEMORY_END.floor`, recycled page numbers
are pairwise distinct previously handed-out frames (hence below the
cursor), and the pool lies inside the 44-bit physical page space. -/
def StackFrameAllocator.Inv (a : StackFrameAllocator) : Prop :=
  a.recycled.Nodup ∧ (∀ p ∈ a.recycled, p < a.current) ∧
    a.current ≤ a.endp ∧ a.endp ≤ 2 ^ 44

/-- Page numbers below `2 ^ 44` pass through `PhysPageNum::from` unchanged. -/
theorem ppn_from_usize_eq_of_lt {p : Nat} (h : p < 2 ^ 44) :
    PhysPageNum.from_usize p = p := by
  rw [PhysPageNum.from_usize, PPN_WIDTH_SV39, PA_WIDTH_SV39, PAGE_SIZE_BITS]
  show p &&& (1 <<< 44 - 1) = p
  rw [and_shiftLeft_one_sub_one_eq_mod]
  exact Nat.mod_eq_of_lt h

/-! ## C6: dealloc panics exactly on non-allocated or double-freed pages -/

/-- C6 [confirmed]: `dealloc` panics exactly when the page number is not
below the allocation cursor or already sits in the recycled list; a page
that passes the validation is pushed onto the recycled list, and deallocating
it a second time is a fatal double free. -/
theorem c6_dealloc_validation (a : StackFrameAllocator) (ppn : Nat) :
    (a.dealloc ppn = none ↔ ppn ≥ a.current ∨ ppn ∈ a.recycled) ∧
    (∀ a1, a.dealloc ppn = some a1 →
      a1 = { a with recycled := ppn :: a.recycled } ∧ a1.dealloc ppn = none) := by
  constructor
  · unfold StackFrameAllocator.dealloc
    by_cases h : ppn ≥ a.current ∨ ppn ∈ a.recycled
    · simp [h]
    · simp [h]
  · intro a1 h1
    unfold StackFrameAllocator.dealloc at h1
    by_cases h : ppn ≥ a.current ∨ ppn ∈ a.recycled
    · simp [h] at h1
    · simp [h] at h1
      refine ⟨h1.symm, ?_⟩
      rw [← h1]
      unfold StackFrameAllocator.dealloc
      simp

/-- Witness for `c6_dealloc_validation`: from the state
`⟨current := 3, endp := 5, recycled := [1]⟩`, freeing page 2 succeeds and a
second free of page 2 panics. -/
theorem c6_dealloc_validation_witness :
    StackFrameAllocator.dealloc ⟨3, 5, [1]⟩ 2 = some ⟨3, 5, [2, 1]⟩ ∧
    StackFrameAllocator.dealloc ⟨3, 5, [2, 1]⟩ 2 = none ∧
    StackFrameAllocator.dealloc ⟨3, 5, [1]⟩ 7 = none := by
  refine ⟨by decide, ?_, ?_⟩
  · have h := ((c6_dealloc_validation ⟨3, 5, [1]⟩ 2).2 ⟨3, 5, [2, 1]⟩ (by decide)).2
    exact h
  · exact (c6_dealloc_validation ⟨3, 5, [1]⟩ 7).1.mpr (by decide)

/-! ## C9: LIFO reuse of recycled frames -/

/-- C9 [confirmed]: immediately after a successful `dealloc` of `ppn`
(which is how a dropped `FrameTracker` releases its page), the very next
`alloc` pops the recycled stack and returns exactly `ppn`. -/
theorem c9_lifo_reuse (a : StackFrameAllocator) (ppn : Nat) (a1 : StackFrameAllocator)
    (hv : ppn < 2 ^ 44) (h : a.dealloc ppn = some a1) :
    a1.alloc = (some ppn, { a1 with recycled := a.recycled }) := by
  unfold StackFrameAllocator.dealloc at h
  by_cases hc : ppn ≥ a.current ∨ ppn ∈ a.recycled
  · simp [hc] at h
  · simp [hc] at h
    rw [← h]
    unfold StackFrameAllocator.alloc
    simp [ppn_from_usize_eq_of_lt hv]

/-- Witness for `c9_lifo_reuse`: freeing page 2 from
`⟨current := 3, endp := 5, recycled := [1]⟩` and allocating again returns
page 2. -/
theorem c9_lifo_reuse_witness :
    StackFrameAllocator.dealloc ⟨3, 5, [1]⟩ 2 = some ⟨3, 5, [2, 1]⟩ ∧
    StackFrameAllocator.alloc ⟨3, 5, [2, 1]⟩ = (some 2, ⟨3, 5, [1]⟩) := by
  refine ⟨by decide, ?_⟩
  exact c9_lifo_reuse ⟨3, 5, [1]⟩ 2 ⟨3, 5, [2, 1]⟩ (by decide) (by decide)

/-! ## C4: every frame handed out is zeroed -/

/-- C4 [confirmed]: whenever `frame_alloc` returns a frame handle, all 4096
bytes of the backing page are zero in the resulting memory, whether the
page came from the recycled stack or from the fresh-page cursor. -/
theorem c4_frame_alloc_zeroed (a : StackFrameAllocator) (m : Mem)
    (ppn : Nat) (a1 : StackFrameAllocator) (m1 : Mem)
    (h : frame_alloc a m = some (ppn, a1, m1)) :
    ∀ i, i < 4096 → m1 ppn i = 0 := by
  intro i hi
  unfold frame_alloc at h
  cases ha : a.alloc with
  | mk o a2 =>
    rw [ha] at h
    cases o with
    | none => simp at h
    | some p =>
      simp at h
      obtain ⟨hp, _, hm⟩ := h
      rw [← hm, Mem.clearBytes]
      simp [hp, hi]

/-- Witness for `c4_frame_alloc_zeroed`: allocating from a one-page pool
over the constant-7 memory yields page 0 with its bytes zeroed. -/
theorem c4_frame_alloc_zeroed_witness :
    frame_alloc ⟨0, 1, []⟩ (fun _ _ => 7) =
      some (0, ⟨1, 1, []⟩, Mem.clearBytes (fun _ _ => 7) 0) ∧
    Mem.clearBytes (fun _ _ => 7) 0 0 99 = 0 := by
  constructor
  · rfl
  · exact c4_frame_alloc_zeroed ⟨0, 1, []⟩ (fun _ _ => 7) 0 ⟨1, 1, []⟩
      (Mem.clearBytes (fun _ _ => 7) 0) rfl 99 (by decide)

/-! ## C3: allocation sequences lose no frame and never duplicate -/

/-- `n` successive `frame_alloc`s at the allocator level; `none` if any
allocation reports exhaustion. -/
def allocN : StackFrameAllocator → Nat → Option (List Nat × StackFrameAllocator)
  | a, 0 => some ([], a)
  | a, n + 1 =>
    match a.alloc with
    | (some p, a1) =>
      match allocN a1 n with
      | some (ps, a2) => some (p :: ps, a2)
      | none => none
    | (none, _) => none

/-- Dropping a collection of `FrameTracker`s in a chosen order: each drop
calls `frame_dealloc` on its page; `none` if any `dealloc` panics. -/
def deallocList : StackFrameAllocator → List Nat → Option StackFrameAllocator
  | a, [] => some a
  | a, q :: qs =>
    match a.dealloc q with
    | some a1 => deallocList a1 qs
    | none => none

theorem alloc_some_spec {a : StackFrameAllocator} (ha : a.Inv) {p : Nat}
    {a1 : StackFrameAllocator} (h : a.alloc = (some p, a1)) :
    a1.Inv ∧ a1.endp = a.endp ∧ a.current ≤ a1.current ∧
    p < a1.current ∧ p ∉ a1.recycled ∧
    (∀ x, x < a.current → x ∉ a.recycled → x ≠ p ∧ x < a1.current ∧ x ∉ a1.recycled) := by
  obtain ⟨cur, ep, rec⟩ := a
  obtain ⟨hnd, hlt, hce, he⟩ := ha
  dsimp only at hnd hlt hce he
  cases rec with
  | cons r rest =>
    have hrc : r < cur := hlt r (List.mem_cons_self r rest)
    have h' : (some (PhysPageNum.from_usize r), (⟨cur, ep, rest⟩ : StackFrameAllocator)) =
        (some p, a1) := h
    rw [ppn_from_usize_eq_of_lt (show r < 2 ^ 44 by omega)] at h'
    injection h' with h1 h2
    injection h1 with h1
    subst h1
    subst h2
    refine ⟨⟨hnd.of_cons, ?_, hce, he⟩, rfl, le_refl _, hrc, ?_, ?_⟩
    · intro q hq
      exact hlt q (List.mem_cons_of_mem r hq)
    · exact (List.nodup_cons.mp hnd).1
    · intro x hx1 hx2
      exact ⟨fun hxp => hx2 (hxp ▸ List.mem_cons_self r rest),
        hx1, fun hm => hx2 (List.mem_cons_of_mem r hm)⟩
  | nil =>
    have h' : (if cur = ep then ((none : Option Nat), (⟨cur, ep, []⟩ : StackFrameAllocator))
        else (some (PhysPageNum.from_usize (cur + 1 - 1)), ⟨cur + 1, ep, []⟩)) =
        (some p, a1) := h
    by_cases hc : cur = ep
    · rw [if_pos hc] at h'
      injection h' with h1 _
      exact absurd h1 (by simp)
    · rw [if_neg hc] at h'
      rw [Nat.add_sub_cancel, ppn_from_usize_eq_of_lt (show cur < 2 ^ 44 by omega)] at h'
      injection h' with h1 h2
      injection h1 with h1
      subst h1
      subst h2
      refine ⟨⟨List.nodup_nil, by simp, by dsimp only; omega, he⟩, rfl,
        by dsimp only; omega, by dsimp only; omega, by simp, ?_⟩
      intro x hx1 _
      dsimp only at hx1 ⊢
      exact ⟨by omega, by omega, by simp⟩

theorem allocN_some_spec :
    ∀ (n : Nat) (a : StackFrameAllocator) (ps : List Nat) (a2 : StackFrameAllocator),
    a.Inv → allocN a n = some (ps, a2) →
    a2.Inv ∧ a2.endp = a.endp ∧ a.current ≤ a2.current ∧ ps.length = n ∧ ps.Nodup ∧
    (∀ q ∈ ps, q < a2.current ∧ q ∉ a2.recycled) ∧
    (∀ x, x < a.current → x ∉ a.recycled → x < a2.current ∧ x ∉ a2.recycled ∧ x ∉ ps) := by
  intro n
  induction n with
  | zero =>
    intro a ps a2 ha h
    rw [allocN] at h
    injection h with h
    injection h with hps ha2
    subst hps
    subst ha2
    exact ⟨ha, rfl, le_refl _, rfl, List.nodup_nil, by simp, fun x h1 h2 => ⟨h1, h2, by simp⟩⟩
  | succ k ih =>
    intro a ps a2 ha h
    rw [allocN] at h
    split at h
    case h_2 => exact absurd h (by simp)
    case h_1 p a1 hal =>
      split at h
      case h_2 => exact absurd h (by simp)
      case h_1 ps' a2' hrec =>
        injection h with h
        injection h with hps ha2
        subst hps
        subst ha2
        obtain ⟨h1inv, h1end, h1cur, h1plt, h1pnr, h1pres⟩ := alloc_some_spec ha hal
        obtain ⟨h2inv, h2end, h2cur, h2len, h2nd, h2mem, h2pres⟩ :=
          ih a1 ps' a2' h1inv hrec
        obtain ⟨hpcur, hpnr, hpnotin⟩ := h2pres p h1plt h1pnr
        refine ⟨h2inv, h2end.trans h1end, le_trans h1cur h2cur, by simp [h2len],
          List.nodup_cons.mpr ⟨hpnotin, h2nd⟩, ?_, ?_⟩
        · intro q hq
          rcases List.mem_cons.mp hq with hq | hq
          · exact hq ▸ ⟨hpcur, hpnr⟩
          · exact h2mem q hq
        · intro x hx1 hx2
          obtain ⟨hxp, hxc, hxr⟩ := h1pres x hx1 hx2
          obtain ⟨hxc2, hxr2, hxps⟩ := h2pres x hxc hxr
          exact ⟨hxc2, hxr2, by
            intro hm
            rcases List.mem_cons.mp hm with hm | hm
            · exact hxp hm
            · exact hxps hm⟩

theorem deallocList_pushes :
    ∀ (qs : List Nat) (a : StackFrameAllocator), qs.Nodup →
    (∀ q ∈ qs, q < a.current ∧ q ∉ a.recycled) →
    deallocList a qs = some ⟨a.current, a.endp, qs.reverse ++ a.recycled⟩ := by
  intro qs
  induction qs with
  | nil => intro a _ _; rw [deallocList]; simp
  | cons q qs ih =>
    intro a hnd hq
    obtain ⟨hqc, hqr⟩ := hq q (List.mem_cons_self q qs)
    have hcond : ¬ (q ≥ a.current ∨ q ∈ a.recycled) := by
      push_neg
      exact ⟨by omega, hqr⟩
    have hstep : deallocList a (q :: qs) =
        deallocList { a with recycled := q :: a.recycled } qs := by
      rw [deallocList, StackFrameAllocator.dealloc, if_neg hcond]
    rw [hstep]
    have hrec := ih { a with recycled := q :: a.recycled } hnd.of_cons ?_
    · rw [hrec]
      simp
    · intro q' hq'
      obtain ⟨hq'c, hq'r⟩ := hq q' (List.mem_cons_of_mem q hq')
      refine ⟨hq'c, ?_⟩
      simp only [List.mem_cons]
      push_neg
      exact ⟨fun he => (List.nodup_cons.mp hnd).1 (he ▸ hq'), hq'r⟩

theorem allocN_pops_prefix :
    ∀ (l r : List Nat) (c e : Nat), (∀ p ∈ l, p < 2 ^ 44) →
    allocN ⟨c, e, l ++ r⟩ l.length = some (l, ⟨c, e, r⟩) := by
  intro l
  induction l with
  | nil =>
    intro r c e _
    show allocN ⟨c, e, r⟩ 0 = some ([], ⟨c, e, r⟩)
    rw [allocN]
  | cons p l ih =>
    intro r c e hlt
    have hstep : StackFrameAllocator.alloc ⟨c, e, (p :: l) ++ r⟩ =
        (some p, ⟨c, e, l ++ r⟩) := by
      show (some (PhysPageNum.from_usize p), (⟨c, e, l ++ r⟩ : StackFrameAllocator)) = _
      rw [ppn_from_usize_eq_of_lt (hlt p (List.mem_cons_self p l))]
    simp only [List.length_cons, allocN, hstep,
      ih r c e (fun q hq => hlt q (List.mem_cons_of_mem p hq))]

/-- C3 [confirmed]: starting from any valid allocator state, allocate `n`
frames, then release all of them in an arbitrary order `qs`.  The `n` live
page numbers are pairwise distinct, every release succeeds, and the next
`n` allocations return exactly the same set of page numbers (`qs.reverse`,
a permutation of the original batch) — no frame is lost. -/
theorem c3_alloc_release_no_loss (a : StackFrameAllocator) (n : Nat)
    (ps qs : List Nat) (a1 : StackFrameAllocator)
    (ha : a.Inv) (halloc : allocN a n = some (ps, a1)) (hperm : qs.Perm ps) :
    ps.Nodup ∧
    deallocList a1 qs = some ⟨a1.current, a1.endp, qs.reverse ++ a1.recycled⟩ ∧
    allocN ⟨a1.current, a1.endp, qs.reverse ++ a1.recycled⟩ n =
      some (qs.reverse, ⟨a1.current, a1.endp, a1.recycled⟩) ∧
    qs.reverse.Perm ps := by
  obtain ⟨hinv, hend, hcur, hlen, hnd, hmem, _⟩ := allocN_some_spec n a ps a1 ha halloc
  have hqmem : ∀ q ∈ qs, q < a1.current ∧ q ∉ a1.recycled :=
    fun q hq => hmem q (hperm.subset hq)
  have hqnd : qs.Nodup := hperm.nodup_iff.mpr hnd
  have h44 : ∀ q ∈ qs.reverse, q < 2 ^ 44 := by
    intro q hq
    have hq' := (hqmem q (List.mem_reverse.mp hq)).1
    obtain ⟨_, _, hc, he⟩ := hinv
    omega
  have hlen2 : qs.reverse.length = n := by
    rw [List.length_reverse, hperm.length_eq, hlen]
  have hpop := allocN_pops_prefix qs.reverse a1.recycled a1.current a1.endp h44
  rw [hlen2] at hpop
  refine ⟨hnd, deallocList_pushes qs a1 hqnd hqmem, hpop,
    (qs.reverse_perm).trans hperm⟩

/-- Witness for `c3_alloc_release_no_loss`: two allocations from the empty
pool `[0, 5)` yield pages `[0, 1]`; releasing them in the order `[1, 0]`
and allocating twice more returns `[0, 1]` again. -/
theorem c3_alloc_release_no_loss_witness :
    StackFrameAllocator.Inv ⟨0, 5, []⟩ ∧
    allocN ⟨0, 5, []⟩ 2 = some ([0, 1], ⟨2, 5, []⟩) ∧
    deallocList ⟨2, 5, []⟩ [1, 0] = some ⟨2, 5, [0, 1]⟩ ∧
    allocN ⟨2, 5, [0, 1]⟩ 2 = some ([0, 1], ⟨2, 5, []⟩) ∧
    List.Perm [0, 1] [0, 1] := by
  have h := c3_alloc_release_no_loss ⟨0, 5, []⟩ 2 [0, 1] [1, 0] ⟨2, 5, []⟩
    (by constructor <;> simp) (by decide) (by decide)
  exact ⟨by constructor <;> simp, by decide, h.2.1, h.2.2.1, h.2.2.2⟩

/-! ## Page table (os/src/mm/page_table.rs) -/

/-- `PTEFlags::V`. -/
def PTEFlags.V : Nat := 1 <<< 0

/-- `PTEFlags::R`. -/
def PTEFlags.R : Nat := 1 <<< 1

/-- `PTEFlags::W`. -/
def PTEFlags.W : Nat := 1 <<< 2

/-- `PTEFlags::X`. -/
def PTEFlags.X : Nat := 1 <<< 3

/-- `PTEFlags::U`. -/
def PTEFlags.U : Nat := 1 <<< 4

/-- `PageTableEntry::new`: `ppn.0 << 10 | flags.bits`. -/
def PageTableEntry.new (ppn flags : Nat) : Nat := ppn <<< 10 ||| flags

/-- `PageTableEntry::empty`: all bits zero (`V = 0`, so invalid). -/
def PageTableEntry.empty : Nat := 0

/-- `PageTableEntry::ppn`: `(bits >> 10) & ((1 << 44) - 1)`. -/
def PageTableEntry.ppn (bits : Nat) : Nat := (bits >>> 10) &&& ((1 <<< 44) - 1)

/-- `PageTableEntry::flags`: `bits as u8` (the low eight flag bits). -/
def PageTableEntry.flags (bits : Nat) : Nat := bits % 256

/-- `PageTableEntry::is_valid`: `(flags & V) != empty`. -/
def PageTableEntry.is_valid (bits : Nat) : Bool :=
  (PageTableEntry.flags bits &&& PTEFlags.V) != 0

/-- `PageTable`: the root node's physical page plus the pages of all owned
table-node frames (the `frames : Vec<FrameTracker>` bookkeeping). -/
structure PageTable where
  root_ppn : Nat
  frames : List Nat
deriving DecidableEq

/-- `PageTable::find_pte`, the read-only three-level walk, with the
`for i in 0..3` loop unrolled: at levels 0 and 1 an invalid entry aborts
the walk (`None`); at level 2 the location `(page, index)` of the leaf
entry — standing for the source's `&mut PageTableEntry` — is returned
without a validity check. -/
def PageTable.find_pte (pt : PageTable) (m : Mem) (vpn : Nat) : Option (Nat × Nat) :=
  let idxs := VirtPageNum.indexes vpn
  let pte0 := m pt.root_ppn idxs.1
  if PageTableEntry.is_valid pte0 then
    let pte1 := m (PageTableEntry.ppn pte0) idxs.2.1
    if PageTableEntry.is_valid pte1 then
      some (PageTableEntry.ppn pte1, idxs.2.2)
    else none
  else none

/-- `PageTable::find_pte_create`, unrolled: at levels 0 and 1 an invalid
entry is replaced by a freshly allocated, zeroed node frame installed as
`new(frame.ppn, V)` (the frame is pushed onto `frames`; allocation failure
is the source's `unwrap` panic); the walk continues at `pte.ppn()` of the
entry now in place.  At level 2 the leaf location is returned. -/
def PageTable.find_pte_create (pt : PageTable) (m : Mem) (al : StackFrameAllocator)
    (vpn : Nat) : Option ((Nat × Nat) × PageTable × Mem × StackFrameAllocator) :=
  let idxs := VirtPageNum.indexes vpn
  let pte0 := m pt.root_ppn idxs.1
  match
    (if PageTableEntry.is_valid pte0 then
      some (PageTableEntry.ppn pte0, pt, m, al)
    else
      match frame_alloc_pte al m with
      | none => none
      | some (f, al1, m1) =>
        some (PageTableEntry.ppn (PageTableEntry.new f PTEFlags.V),
          { pt with frames := pt.frames ++ [f] },
          m1.write pt.root_ppn idxs.1 (PageTableEntry.new f PTEFlags.V), al1)) with
  | none => none
  | some (p1, pt1, m2, al2) =>
    let pte1 := m2 p1 idxs.2.1
    if PageTableEntry.is_valid pte1 then
      some ((PageTableEntry.ppn pte1, idxs.2.2), pt1, m2, al2)
    else
      match frame_alloc_pte al2 m2 with
      | none => none
      | some (f2, al3, m3) =>
        some ((PageTableEntry.ppn (PageTableEntry.new f2 PTEFlags.V), idxs.2.2),
          { pt1 with frames := pt1.frames ++ [f2] },
          m3.write p1 idxs.2.1 (PageTableEntry.new f2 PTEFlags.V), al3)

/-- `PageTable::map`: walk with create (`unwrap` panics on exhaustion),
assert the leaf is not yet valid (`"vpn is mapped before mapping"`), then
store `new(ppn, flags | V)`. -/
def PageTable.map (pt : PageTable) (m : Mem) (al : StackFrameAllocator)
    (vpn ppn flags : Nat) : Option (PageTable × Mem × StackFrameAllocator) :=
  match pt.find_pte_create m al vpn with
  | none => none
  | some ((p, i), pt1, m1, al1) =>
    if PageTableEntry.is_valid (m1 p i) then none
    else some (pt1, m1.write p i (PageTableEntry.new ppn (flags ||| PTEFlags.V)), al1)

/-- `PageTable::unmap`: read-only walk (`unwrap` panics on `None`), assert
the leaf is valid (`"vpn is invalid before unmapping"`), then clear it. -/
def PageTable.unmap (pt : PageTable) (m : Mem) (vpn : Nat) : Option Mem :=
  match pt.find_pte m vpn with
  | none => none
  | some (p, i) =>
    if PageTableEntry.is_valid (m p i) then some (m.write p i PageTableEntry.empty)
    else none

/-- `PageTable::translate`: non-mutating walk returning a copy of the leaf
entry, or `None` when the walk aborts. -/
def PageTable.translate (pt : PageTable) (m : Mem) (vpn : Nat) : Option Nat :=
  (pt.find_pte m vpn).map (fun pi => m pi.1 pi.2)

/-! ### Entry-level lemmas -/

theorem pte_new_eq {f : Nat} (p : Nat) (hf : f < 1024) :
    PageTableEntry.new p f = p * 1024 + f := by
  unfold PageTableEntry.new
  have h := shiftLeft_lor_eq_add (f := f) (n := 10) p (by norm_num; omega)
  rw [h]
  norm_num

theorem pte_flags_new {f : Nat} (p : Nat) (hf : f < 256) :
    PageTableEntry.flags (PageTableEntry.new p f) = f := by
  rw [pte_new_eq p (by omega)]
  unfold PageTableEntry.flags
  omega

theorem pte_ppn_new {p f : Nat} (hp : p < 2 ^ 44) (hf : f < 1024) :
    PageTableEntry.ppn (PageTableEntry.new p f) = p := by
  rw [pte_new_eq p hf]
  unfold PageTableEntry.ppn
  rw [and_shiftLeft_one_sub_one_eq_mod, shiftRight_eq_div]
  have h1 : (2 : Nat) ^ 10 = 1024 := by norm_num
  have h2 : (p * 1024 + f) / 1024 = p := by omega
  rw [h1, h2]
  exact Nat.mod_eq_of_lt hp

theorem lor_one_and_one (f : Nat) : (f ||| 1) &&& 1 = 1 := by
  apply Nat.eq_of_testBit_eq
  intro i
  cases i with
  | zero =>
    rw [Nat.testBit_and, Nat.testBit_lor]
    have h1 : Nat.testBit 1 0 = true := by decide
    rw [h1]
    simp
  | succ k =>
    have h1 : Nat.testBit 1 (k + 1) = false :=
      Nat.testBit_lt_two_pow (by
        have := Nat.pow_le_pow_right (show 1 ≤ 2 by omega) (show 1 ≤ k + 1 by omega)
        omega)
    rw [Nat.testBit_and, h1]
    simp

theorem lor_one_mod_two (f : Nat) : (f ||| 1) % 2 = 1 := by
  rw [← and_one_eq_mod, lor_one_and_one]

theorem lor_one_lt {f : Nat} (hf : f < 256) : f ||| 1 < 256 := by
  have h : f ||| 1 < 2 ^ 8 := Nat.or_lt_two_pow (by norm_num; omega) (by norm_num)
  omega

theorem pte_valid_new {f : Nat} (p : Nat) (hf : f < 256) (hodd : f % 2 = 1) :
    PageTableEntry.is_valid (PageTableEntry.new p f) = true := by
  unfold PageTableEntry.is_valid
  rw [pte_flags_new p hf]
  unfold PTEFlags.V
  show (f &&& 1 != 0) = true
  rw [and_one_eq_mod, hodd]
  rfl

theorem pte_valid_zero : PageTableEntry.is_valid 0 = false := by decide

/-! ### Allocation helper lemmas -/

/-- Every page number handed out by `alloc` went through the 44-bit
`PhysPageNum::from` mask. -/
theorem alloc_masked {al : StackFrameAllocator} {f : Nat} {al1 : StackFrameAllocator}
    (h : al.alloc = (some f, al1)) : f < 2 ^ 44 := by
  have hm : ∀ v : Nat, PhysPageNum.from_usize v < 2 ^ 44 := by
    intro v
    rw [PhysPageNum.from_usize, PPN_WIDTH_SV39, PA_WIDTH_SV39, PAGE_SIZE_BITS]
    show v &&& (1 <<< 44 - 1) < 2 ^ 44
    rw [and_shiftLeft_one_sub_one_eq_mod]
    exact Nat.mod_lt _ (by norm_num)
  obtain ⟨cur, ep, rec⟩ := al
  cases rec with
  | cons r rest =>
    have h' : (some (PhysPageNum.from_usize r), (⟨cur, ep, rest⟩ : StackFrameAllocator)) =
        (some f, al1) := h
    injection h' with h1 _
    injection h1 with h1
    exact h1 ▸ hm r
  | nil =>
    have h' : (if cur = ep then ((none : Option Nat), (⟨cur, ep, []⟩ : StackFrameAllocator))
        else (some (PhysPageNum.from_usize (cur + 1 - 1)), ⟨cur + 1, ep, []⟩)) =
        (some f, al1) := h
    by_cases hc : cur = ep
    · rw [if_pos hc] at h'
      injection h' with h1 _
      exact absurd h1 (by simp)
    · rw [if_neg hc] at h'
      injection h' with h1 _
      injection h1 with h1
      exact h1 ▸ hm (cur + 1 - 1)

theorem frame_alloc_pte_spec {al : StackFrameAllocator} {m : Mem} {f : Nat}
    {al1 : StackFrameAllocator} {m1 : Mem}
    (h : frame_alloc_pte al m = some (f, al1, m1)) :
    al.alloc = (some f, al1) ∧ m1 = m.clearPtes f := by
  unfold frame_alloc_pte at h
  split at h
  case h_1 p a1 heq =>
    injection h with h
    injection h with h1 h
    injection h with h2 h3
    subst h1
    subst h2
    subst h3
    exact ⟨heq, rfl⟩
  case h_2 => exact absurd h (by simp)

/-! ## C1: translate after unmap -/

/-- An all-zero physical memory. -/
def mEx : Mem := fun _ _ => 0

/-- An allocator whose next fresh frames are pages 1, 2, 3 (page 0 already
holds the root node). -/
def alEx : StackFrameAllocator := ⟨1, 4, []⟩

/-- A freshly created page table whose root node is the zeroed page 0
(`PageTable::new`). -/
def ptEx : PageTable := ⟨0, [0]⟩

/-- C1 [counterexample]: on a fresh table, `map(0, 3, R|W)` succeeds and
`unmap(0)` succeeds, yet the immediately following `translate(0)` returns
`some` of the cleared (empty, invalid) leaf entry — not `none` — because
`unmap` only zeroes the leaf while the two intermediate nodes stay valid. -/
theorem c1_translate_after_unmap_counterexample :
    ((ptEx.map mEx alEx 0 3 (PTEFlags.R ||| PTEFlags.W)).bind fun r =>
      (r.1.unmap r.2.1 0).map fun mz => r.1.translate mz 0) = some (some 0) ∧
    some (0 : Nat) ≠ (none : Option Nat) := by
  exact ⟨by decide, by simp⟩

/-- C1 [amended]: whenever `unmap(vpn)` succeeds, an immediately following
`translate(vpn)` returns no valid mapping: either `none`, or a copy of the
now-empty leaf entry, whose `V` flag is clear. -/
theorem c1_unmap_then_translate (pt : PageTable) (m : Mem) (vpn : Nat) (m2 : Mem)
    (h : pt.unmap m vpn = some m2) :
    (pt.translate m2 vpn = none ∨ pt.translate m2 vpn = some PageTableEntry.empty) ∧
    (∀ e, pt.translate m2 vpn = some e → PageTableEntry.is_valid e = false) := by
  have hmain : pt.translate m2 vpn = none ∨
      pt.translate m2 vpn = some PageTableEntry.empty := by
    unfold PageTable.unmap at h
    split at h
    case h_1 => exact absurd h (by simp)
    case h_2 p i heq =>
      split at h
      case isFalse => exact absurd h (by simp)
      case isTrue hval =>
        injection h with h
        subst h
        simp only [PageTable.find_pte, VirtPageNum.indexes] at heq
        split at heq
        case isFalse => exact absurd heq (by simp)
        case isTrue hv0 =>
          split at heq
          case isFalse => exact absurd heq (by simp)
          case isTrue hv1 =>
            injection heq with heq
            injection heq with hp hi
            subst hp
            subst hi
            simp only [PageTable.translate, PageTable.find_pte, VirtPageNum.indexes,
              Mem.write, Option.map_eq_map]
            by_cases hA : pt.root_ppn = PageTableEntry.ppn
                (m (PageTableEntry.ppn (m pt.root_ppn ((vpn >>> 9 >>> 9) &&& 511)))
                  ((vpn >>> 9) &&& 511)) ∧
                (vpn >>> 9 >>> 9) &&& 511 = vpn &&& 511
            · rw [if_pos hA]
              rw [show PageTableEntry.is_valid PageTableEntry.empty = false by decide]
              simp
            · rw [if_neg hA, if_pos hv0]
              by_cases hB : PageTableEntry.ppn (m pt.root_ppn ((vpn >>> 9 >>> 9) &&& 511)) =
                  PageTableEntry.ppn
                    (m (PageTableEntry.ppn (m pt.root_ppn ((vpn >>> 9 >>> 9) &&& 511)))
                      ((vpn >>> 9) &&& 511)) ∧
                  (vpn >>> 9) &&& 511 = vpn &&& 511
              · rw [if_pos hB]
                rw [show PageTableEntry.is_valid PageTableEntry.empty = false by decide]
                simp
              · rw [if_neg hB, if_pos hv1]
                simp
  refine ⟨hmain, ?_⟩
  intro e he
  rcases hmain with hg | hg
  · rw [hg] at he
    exact absurd he (by simp)
  · rw [hg] at he
    injection he with he
    rw [← he]
    decide

/-- A three-node page table over pages 0 (root), 1, 2 with the single
mapping `vpn 0 ↦ (ppn 3, flags V|R|W)` installed at leaf location `(2, 0)`. -/
def mC1 : Mem := fun q j =>
  if q = 0 ∧ j = 0 then PageTableEntry.new 1 PTEFlags.V
  else if q = 1 ∧ j = 0 then PageTableEntry.new 2 PTEFlags.V
  else if q = 2 ∧ j = 0 then PageTableEntry.new 3 7
  else 0

/-- The `PageTable` owning the nodes of `mC1`. -/
def ptC1 : PageTable := ⟨0, [0, 1, 2]⟩

/-- Witness for `c1_unmap_then_translate` on the concrete table `mC1`. -/
theorem c1_unmap_then_translate_witness :
    ptC1.unmap mC1 0 = some (mC1.write 2 0 PageTableEntry.empty) ∧
    (ptC1.translate (mC1.write 2 0 PageTableEntry.empty) 0 = none ∨
      ptC1.translate (mC1.write 2 0 PageTableEntry.empty) 0 = some PageTableEntry.empty) := by
  constructor
  · rfl
  · exact (c1_unmap_then_translate ptC1 mC1 0 (mC1.write 2 0 PageTableEntry.empty) rfl).1

/-! ## C5: map/unmap preconditions -/

/-- C5 [confirmed]: once the walk-with-create reaches a leaf location,
`map` panics exactly when that leaf is already valid, and succeeds
(installing `new(ppn, flags | V)`) when it is not; `unmap` panics exactly
when the read-only walk fails or the leaf it finds is invalid, and succeeds
(clearing the leaf) when the leaf is valid. -/
theorem c5_map_unmap_preconditions :
    (∀ (pt : PageTable) (m : Mem) (al : StackFrameAllocator) (vpn ppn flags p i : Nat)
      (pt1 : PageTable) (m1 : Mem) (al1 : StackFrameAllocator),
      pt.find_pte_create m al vpn = some ((p, i), pt1, m1, al1) →
      (pt.map m al vpn ppn flags = none ↔ PageTableEntry.is_valid (m1 p i) = true) ∧
      (PageTableEntry.is_valid (m1 p i) = false →
        pt.map m al vpn ppn flags =
          some (pt1, m1.write p i (PageTableEntry.new ppn (flags ||| PTEFlags.V)), al1))) ∧
    (∀ (pt : PageTable) (m : Mem) (vpn : Nat),
      (pt.unmap m vpn = none ↔
        pt.find_pte m vpn = none ∨
        ∃ p i, pt.find_pte m vpn = some (p, i) ∧ PageTableEntry.is_valid (m p i) = false) ∧
      (∀ p i, pt.find_pte m vpn = some (p, i) → PageTableEntry.is_valid (m p i) = true →
        pt.unmap m vpn = some (m.write p i PageTableEntry.empty))) := by
  constructor
  · intro pt m al vpn ppn flags p i pt1 m1 al1 hfc
    unfold PageTable.map
    rw [hfc]
    by_cases hv : PageTableEntry.is_valid (m1 p i) = true
    · simp [hv]
    · simp only [Bool.not_eq_true] at hv
      simp [hv]
  · intro pt m vpn
    unfold PageTable.unmap
    cases hfp : pt.find_pte m vpn with
    | none => simp
    | some pi =>
      obtain ⟨p, i⟩ := pi
      by_cases hv : PageTableEntry.is_valid (m p i) = true
      · simp [hv]
      · simp only [Bool.not_eq_true] at hv
        simp [hv]
        exact ⟨p, i, ⟨rfl, rfl⟩, hv⟩

/-- Witness for `c5_map_unmap_preconditions` on the concrete table `mC1`:
re-mapping the already-valid `vpn 0` panics, and unmapping it succeeds. -/
theorem c5_map_unmap_preconditions_witness :
    ptC1.map mC1 alEx 0 5 2 = none ∧
    ptC1.unmap mC1 0 = some (mC1.write 2 0 PageTableEntry.empty) := by
  refine ⟨?_, ?_⟩
  · exact (c5_map_unmap_preconditions.1 ptC1 mC1 alEx 0 5 2 2 0 ptC1 mC1 alEx
      rfl).1.mpr (by decide)
  · exact (c5_map_unmap_preconditions.2 ptC1 mC1 0).2 2 0 rfl (by decide)

/-! ## C2: map followed by translate on a fresh table -/

/-- C2 [confirmed]: on a freshly created page table (its root node is a
zeroed frame owned by the table, i.e. live in a valid allocator state), a
successful `map(vpn, ppn, flags)` followed immediately by `translate(vpn)`
returns an entry whose page number is `ppn` and whose flag bits are
`flags | V`.  The bounds `ppn < 2^44` and `flags < 256` are the type
invariants of `PhysPageNum` (44-bit masked) and `PTEFlags` (`u8`). -/
theorem c2_fresh_map_then_translate (pt : PageTable) (m : Mem) (al : StackFrameAllocator)
    (vpn ppn flags : Nat) (pt1 : PageTable) (m1 : Mem) (al1 : StackFrameAllocator)
    (hfresh : ∀ j, m pt.root_ppn j = 0)
    (hinv : al.Inv)
    (hroot_lt : pt.root_ppn < al.current)
    (hroot_nr : pt.root_ppn ∉ al.recycled)
    (hppn : ppn < 2 ^ 44)
    (hflags : flags < 256)
    (hmap : pt.map m al vpn ppn flags = some (pt1, m1, al1)) :
    ∃ e, pt1.translate m1 vpn = some e ∧
      PageTableEntry.ppn e = ppn ∧ PageTableEntry.flags e = flags ||| PTEFlags.V := by
  have hVlt : PTEFlags.V < 256 := by decide
  have hVodd : PTEFlags.V % 2 = 1 := by decide
  have hV1 : PTEFlags.V = 1 := by decide
  have hflV_lt : flags ||| PTEFlags.V < 256 := by
    rw [hV1]
    exact lor_one_lt hflags
  unfold PageTable.map at hmap
  split at hmap
  case h_1 => exact absurd hmap (by simp)
  case h_2 p i ptA mA alA hfc =>
    split at hmap
    case isTrue => exact absurd hmap (by simp)
    case isFalse hleaf =>
      injection hmap with hmap
      injection hmap with h1 hmap
      injection hmap with h2 h3
      subst h1
      subst h2
      subst h3
      simp only [PageTable.find_pte_create, VirtPageNum.indexes] at hfc
      rw [hfresh, pte_valid_zero, if_neg Bool.false_ne_true] at hfc
      split at hfc
      case h_1 => exact absurd hfc (by simp)
      case h_2 p1 ptB mB alB heq =>
        split at heq
        case h_1 => exact absurd heq (by simp)
        case h_2 f alC mC hfa =>
          injection heq with heq
          injection heq with hq1 heq
          injection heq with hq2 heq
          injection heq with hq3 hq4
          subst hq1
          subst hq2
          subst hq3
          subst hq4
          obtain ⟨hal1, hmC⟩ := frame_alloc_pte_spec hfa
          subst hmC
          have hf44 : f < 2 ^ 44 := alloc_masked hal1
          have hppn_f : PageTableEntry.ppn (PageTableEntry.new f PTEFlags.V) = f :=
            pte_ppn_new hf44 (by decide)
          rw [hppn_f] at hfc
          obtain ⟨hCinv, hCend, hCcur, hfltC, hfnrC, hpresC⟩ := alloc_some_spec hinv hal1
          have hroot_f : pt.root_ppn ≠ f := (hpresC _ hroot_lt hroot_nr).1
          have hread1 : Mem.write (Mem.clearPtes m f) pt.root_ppn
              ((vpn >>> 9 >>> 9) &&& 511) (PageTableEntry.new f PTEFlags.V)
              f ((vpn >>> 9) &&& 511) = 0 := by
            simp only [Mem.write, Mem.clearPtes]
            rw [if_neg (fun hc => hroot_f hc.1.symm)]
            simp
          rw [hread1, pte_valid_zero, if_neg Bool.false_ne_true] at hfc
          split at hfc
          case h_1 => exact absurd hfc (by simp)
          case h_2 f2 alD mD hfa2 =>
            obtain ⟨hal2, hmD⟩ := frame_alloc_pte_spec hfa2
            subst hmD
            have hf244 : f2 < 2 ^ 44 := alloc_masked hal2
            have hppn_f2 : PageTableEntry.ppn (PageTableEntry.new f2 PTEFlags.V) = f2 :=
              pte_ppn_new hf244 (by decide)
            rw [hppn_f2] at hfc
            obtain ⟨hDinv, hDend, hDcur, hf2lt, hf2nr, hpresD⟩ := alloc_some_spec hCinv hal2
            have hroot_f2 : pt.root_ppn ≠ f2 :=
              (hpresD _ (hpresC _ hroot_lt hroot_nr).2.1 (hpresC _ hroot_lt hroot_nr).2.2).1
            have hf_f2 : f ≠ f2 := (hpresD _ hfltC hfnrC).1
            injection hfc with hfc
            injection hfc with hq1 hfc
            injection hq1 with hq1a hq1b
            injection hfc with hq2 hfc
            injection hfc with hq3 hq4
            subst hq1a
            subst hq1b
            subst hq2
            subst hq3
            subst hq4
            refine ⟨PageTableEntry.new ppn (flags ||| PTEFlags.V), ?_, ?_, ?_⟩
            · simp only [PageTable.translate, PageTable.find_pte, VirtPageNum.indexes]
              have hr1 : Mem.write (Mem.write (Mem.clearPtes (Mem.write (Mem.clearPtes m f)
                  pt.root_ppn ((vpn >>> 9 >>> 9) &&& 511) (PageTableEntry.new f PTEFlags.V)) f2)
                  f ((vpn >>> 9) &&& 511) (PageTableEntry.new f2 PTEFlags.V))
                  f2 (vpn &&& 511) (PageTableEntry.new ppn (flags ||| PTEFlags.V))
                  pt.root_ppn ((vpn >>> 9 >>> 9) &&& 511) =
                  PageTableEntry.new f PTEFlags.V := by
                simp only [Mem.write, Mem.clearPtes]
                rw [if_neg (fun hc => hroot_f2 hc.1), if_neg (fun hc => hroot_f hc.1),
                  if_neg hroot_f2]
                simp
              rw [hr1, if_pos (pte_valid_new f hVlt hVodd), hppn_f]
              have hr2 : Mem.write (Mem.write (Mem.clearPtes (Mem.write (Mem.clearPtes m f)
                  pt.root_ppn ((vpn >>> 9 >>> 9) &&& 511) (PageTableEntry.new f PTEFlags.V)) f2)
                  f ((vpn >>> 9) &&& 511) (PageTableEntry.new f2 PTEFlags.V))
                  f2 (vpn &&& 511) (PageTableEntry.new ppn (flags ||| PTEFlags.V))
                  f ((vpn >>> 9) &&& 511) = PageTableEntry.new f2 PTEFlags.V := by
                simp only [Mem.write, Mem.clearPtes]
                rw [if_neg (fun hc => hf_f2 hc.1)]
                simp
              rw [hr2, if_pos (pte_valid_new f2 hVlt hVodd), hppn_f2]
              have hr3 : Mem.write (Mem.write (Mem.clearPtes (Mem.write (Mem.clearPtes m f)
                  pt.root_ppn ((vpn >>> 9 >>> 9) &&& 511) (PageTableEntry.new f PTEFlags.V)) f2)
                  f ((vpn >>> 9) &&& 511) (PageTableEntry.new f2 PTEFlags.V))
                  f2 (vpn &&& 511) (PageTableEntry.new ppn (flags ||| PTEFlags.V))
                  f2 (vpn &&& 511) = PageTableEntry.new ppn (flags ||| PTEFlags.V) := by
                simp only [Mem.write]
                exact if_pos ⟨trivial, trivial⟩
              exact congrArg some hr3
            · exact pte_ppn_new hppn (by omega)
            · exact pte_flags_new ppn hflV_lt

/-- Witness for `c2_fresh_map_then_translate`: on the fresh table `ptEx`
over the zeroed memory `mEx`, `map(0, 3, R|W)` then `translate(0)` yields
an entry with page number 3 and flags `R|W|V`. -/
theorem c2_fresh_map_then_translate_witness :
    (∃ r, ptEx.map mEx alEx 0 3 (PTEFlags.R ||| PTEFlags.W) = some r ∧
      ∃ e, r.1.translate r.2.1 0 = some e ∧
        PageTableEntry.ppn e = 3 ∧
        PageTableEntry.flags e = (PTEFlags.R ||| PTEFlags.W) ||| PTEFlags.V) := by
  refine ⟨⟨⟨0, [0, 1, 2]⟩,
    Mem.write (Mem.write (Mem.clearPtes (Mem.write (Mem.clearPtes mEx 1) 0 0
      (PageTableEntry.new 1 PTEFlags.V)) 2) 1 0 (PageTableEntry.new 2 PTEFlags.V))
      2 0 (PageTableEntry.new 3 ((PTEFlags.R ||| PTEFlags.W) ||| PTEFlags.V)),
    ⟨3, 4, []⟩⟩, rfl, ?_⟩
  exact c2_fresh_map_then_translate ptEx mEx alEx 0 3 (PTEFlags.R ||| PTEFlags.W) _ _ _
    (fun j => rfl) (by constructor <;> simp [alEx]) (by decide) (by simp [alEx])
    (by decide) (by decide) rfl

/-! ## Memory sets (os/src/mm/memory_set.rs) -/

/-- `MapType`. -/
inductive MapType where
  | Identical
  | Framed
deriving DecidableEq

/-- `MapPermission::R`. -/
def MapPermission.R : Nat := 1 <<< 1

/-- `MapPermission::W`. -/
def MapPermission.W : Nat := 1 <<< 2

/-- `MapPermission::X`. -/
def MapPermission.X : Nat := 1 <<< 3

/-- `MapPermission::U`. -/
def MapPermission.U : Nat := 1 <<< 4

/-- The bookkeeping of a `MapArea`: its `vpn_range` (`[startVpn, endVpn)`
after flooring/ceiling the byte bounds), its `map_type` and its
`map_perm` bits.  The `data_frames` map and the copied file bytes do not
affect the layout and permission claims. -/
structure MapArea where
  startVpn : Nat
  endVpn : Nat
  map_type : MapType
  map_perm : Nat
deriving DecidableEq

/-- `MapArea::new`: floor the start address, ceil the end address;
`VPNRange::new` asserts `start <= end` (embedded as `none`). -/
def MapArea.new (start_va end_va : Nat) (ty : MapType) (perm : Nat) : Option MapArea :=
  if VirtAddr.floor start_va ≤ VirtAddr.ceil end_va then
    some ⟨VirtAddr.floor start_va, VirtAddr.ceil end_va, ty, perm⟩
  else none

/-- The `MemorySet` bookkeeping: the pushed areas in order, plus the
mapping `map_trampoline` installs directly in the page table — `(virtual
page, PTE flags)` — which belongs to no area. -/
structure MemorySet where
  areas : List MapArea
  trampoline : Option (Nat × Nat)
deriving DecidableEq

/-- One `LOAD` program header of a parsed image (the collaborator
interface of the image parser): virtual address, memory size, R/W/X. -/
structure LoadSegment where
  vaddr : Nat
  mem_size : Nat
  is_read : Bool
  is_write : Bool
  is_execute : Bool
deriving DecidableEq

/-- A parsed image: the `LOAD` program headers in table order and the
declared entry point. -/
structure ElfImage where
  segments : List LoadSegment
  entry_point : Nat
deriving DecidableEq

/-- The permission `from_elf` computes for a loadable segment: start from
`MapPermission::U`, then or in `R`, `W`, `X` as the header declares. -/
def segPerm (s : LoadSegment) : Nat :=
  ((MapPermission.U ||| (if s.is_read then MapPermission.R else 0)) |||
    (if s.is_write then MapPermission.W else 0)) |||
    (if s.is_execute then MapPermission.X else 0)

/-- Start page of a loadable segment: `VirtAddr::from(ph.virtual_addr())`
floored. -/
def segStartVpn (s : LoadSegment) : Nat := VirtAddr.floor (VirtAddr.from_usize s.vaddr)

/-- End page of a loadable segment:
`VirtAddr::from(ph.virtual_addr() + ph.mem_size())` ceiled — this is the
`vpn_range.get_end()` recorded into `max_end_vpn`. -/
def segEndVpn (s : LoadSegment) : Nat :=
  VirtAddr.ceil (VirtAddr.from_usize (s.vaddr + s.mem_size))

/-- The area a loadable segment turns into. -/
def segArea (s : LoadSegment) : MapArea :=
  ⟨segStartVpn s, segEndVpn s, MapType.Framed, segPerm s⟩

/-- The `LOAD` loop of `from_elf`: push one `Framed` area per segment
(`none` embeds a panic), overwriting `max_end_vpn` with each pushed
area's range end. -/
def loadAreas : List LoadSegment → Nat → Option (List MapArea × Nat)
  | [], max_end_vpn => some ([], max_end_vpn)
  | s :: ss, _ =>
    match MapArea.new (VirtAddr.from_usize s.vaddr)
        (VirtAddr.from_usize (s.vaddr + s.mem_size)) MapType.Framed (segPerm s) with
    | none => none
    | some area =>
      match loadAreas ss area.endVpn with
      | none => none
      | some (rest, mev) => some (area :: rest, mev)

/-- `MemorySet::from_elf` (layout bookkeeping): map the trampoline
(`R | X`), push one `Framed` user area per `LOAD` segment, leave one guard
page above `max_end_vpn`, push the fixed-size user stack (`Framed`,
`R | W | U`), push the trap-context page `[TRAP_CONTEXT, TRAMPOLINE)`
(`Framed`, `R | W`), and return the set, `user_stack_top`, and the image's
entry point. -/
def MemorySet.from_elf (elf : ElfImage) : Option (MemorySet × Nat × Nat) :=
  match loadAreas elf.segments 0 with
  | none => none
  | some (las, max_end_vpn) =>
    let user_stack_bottom := VirtAddr.of_vpn max_end_vpn + PAGE_SIZE
    let user_stack_top := user_stack_bottom + USER_STACK_SIZE
    match MapArea.new (VirtAddr.from_usize user_stack_bottom)
        (VirtAddr.from_usize user_stack_top) MapType.Framed
        ((MapPermission.R ||| MapPermission.W) ||| MapPermission.U) with
    | none => none
    | some stack_area =>
      match MapArea.new (VirtAddr.from_usize TRAP_CONTEXT)
          (VirtAddr.from_usize TRAMPOLINE) MapType.Framed
          (MapPermission.R ||| MapPermission.W) with
      | none => none
      | some trap_area =>
        some (⟨las ++ [stack_area, trap_area],
          some (VirtAddr.floor (VirtAddr.from_usize TRAMPOLINE),
            PTEFlags.R ||| PTEFlags.X)⟩,
          user_stack_top, elf.entry_point)

/-- A well-formed program image, per the ELF rules the parser enforces:
at least one loadable segment, each segment occupying at least one page,
`LOAD` entries sorted by virtual address and non-overlapping at page
granularity, and the image living below the stack/trap-context region. -/
def ElfImage.WellFormed (elf : ElfImage) : Prop :=
  elf.segments ≠ [] ∧
  (∀ s ∈ elf.segments, segStartVpn s < segEndVpn s) ∧
  List.Chain' (fun s t => segEndVpn s ≤ segStartVpn t) elf.segments ∧
  (∀ s ∈ elf.segments, segEndVpn s + 3 ≤ VirtAddr.floor (VirtAddr.from_usize TRAP_CONTEXT))

theorem MapArea.new_some {sv ev : Nat} {ty : MapType} {perm : Nat} {a : MapArea}
    (h : MapArea.new sv ev ty perm = some a) :
    a = ⟨VirtAddr.floor sv, VirtAddr.ceil ev, ty, perm⟩ ∧
    VirtAddr.floor sv ≤ VirtAddr.ceil ev := by
  unfold MapArea.new at h
  split at h
  case isTrue hle =>
    injection h with h
    exact ⟨h.symm, hle⟩
  case isFalse => exact absurd h (by simp)

theorem loadAreas_spec :
    ∀ (ss : List LoadSegment) (s : LoadSegment) (mev0 : Nat),
    (∀ t ∈ s :: ss, segStartVpn t < segEndVpn t) →
    loadAreas (s :: ss) mev0 =
      some ((s :: ss).map segArea, segEndVpn (ss.getLastD s)) := by
  intro ss
  induction ss with
  | nil =>
    intro s mev0 h
    have hs := le_of_lt (h s (List.mem_cons_self s []))
    simp only [segStartVpn, segEndVpn] at hs
    rw [loadAreas, MapArea.new, if_pos hs]
    dsimp only
    rw [loadAreas]
    simp [segArea, segStartVpn, segEndVpn]
  | cons t ts ih =>
    intro s mev0 h
    have hs := le_of_lt (h s (List.mem_cons_self s _))
    simp only [segStartVpn, segEndVpn] at hs
    have hrec := ih t (segEndVpn s) (fun u hu => h u (List.mem_cons_of_mem s hu))
    simp only [segEndVpn] at hrec
    rw [List.getLastD_cons]
    rw [loadAreas, MapArea.new, if_pos hs]
    dsimp only
    rw [hrec]
    simp [segArea, segStartVpn, segEndVpn]

theorem chain_end_le_last :
    ∀ (ss : List LoadSegment) (s : LoadSegment),
    (∀ t ∈ s :: ss, segStartVpn t < segEndVpn t) →
    List.Chain' (fun a b => segEndVpn a ≤ segStartVpn b) (s :: ss) →
    ∀ t ∈ s :: ss, segEndVpn t ≤ segEndVpn (ss.getLastD s) := by
  intro ss
  induction ss with
  | nil =>
    intro s _ _ t ht
    rcases List.mem_cons.mp ht with h | h
    · subst h
      simp [List.getLastD]
    · exact absurd h (by simp)
  | cons u us ih =>
    intro s hlt hch t ht
    rw [List.getLastD_cons]
    have hch1 : segEndVpn s ≤ segStartVpn u := (List.chain'_cons.mp hch).1
    have hch2 : List.Chain' (fun a b => segEndVpn a ≤ segStartVpn b) (u :: us) :=
      (List.chain'_cons.mp hch).2
    have hlt2 : ∀ v ∈ u :: us, segStartVpn v < segEndVpn v :=
      fun v hv => hlt v (List.mem_cons_of_mem s hv)
    have hu_last : segEndVpn u ≤ segEndVpn (us.getLastD u) :=
      ih u hlt2 hch2 u (List.mem_cons_self u us)
    rcases List.mem_cons.mp ht with h2 | h2
    · subst h2
      have : segStartVpn u < segEndVpn u := hlt2 u (List.mem_cons_self u us)
      calc segEndVpn t ≤ segStartVpn u := hch1
        _ ≤ segEndVpn u := le_of_lt this
        _ ≤ segEndVpn (us.getLastD u) := hu_last
    · exact ih u hlt2 hch2 t h2

theorem from_elf_structure (elf : ElfImage) (ms : MemorySet) (ust ent : Nat)
    (h : MemorySet.from_elf elf = some (ms, ust, ent)) :
    ∃ las mev sa ta,
      loadAreas elf.segments 0 = some (las, mev) ∧
      MapArea.new (VirtAddr.from_usize (VirtAddr.of_vpn mev + PAGE_SIZE))
        (VirtAddr.from_usize (VirtAddr.of_vpn mev + PAGE_SIZE + USER_STACK_SIZE))
        MapType.Framed ((MapPermission.R ||| MapPermission.W) ||| MapPermission.U) =
        some sa ∧
      MapArea.new (VirtAddr.from_usize TRAP_CONTEXT) (VirtAddr.from_usize TRAMPOLINE)
        MapType.Framed (MapPermission.R ||| MapPermission.W) = some ta ∧
      ms = ⟨las ++ [sa, ta],
        some (VirtAddr.floor (VirtAddr.from_usize TRAMPOLINE), PTEFlags.R ||| PTEFlags.X)⟩ ∧
      ust = VirtAddr.of_vpn mev + PAGE_SIZE + USER_STACK_SIZE ∧
      ent = elf.entry_point := by
  unfold MemorySet.from_elf at h
  split at h
  case h_1 => exact absurd h (by simp)
  case h_2 las mev hla =>
    dsimp only at h
    split at h
    case h_1 => exact absurd h (by simp)
    case h_2 sa hsa =>
      split at h
      case h_1 => exact absurd h (by simp)
      case h_2 ta hta =>
        injection h with h
        injection h with h1 h
        injection h with h2 h3
        exact ⟨las, mev, sa, ta, hla, hsa, hta, h1.symm, h2.symm, h3.symm⟩

/-- Addresses below `2 ^ 39` pass through `VirtAddr::from` unchanged. -/
theorem va_from_usize_eq_of_lt {v : Nat} (h : v < 2 ^ 39) :
    VirtAddr.from_usize v = v := by
  rw [VirtAddr.from_usize, VA_WIDTH_SV39]
  rw [and_shiftLeft_one_sub_one_eq_mod]
  exact Nat.mod_eq_of_lt h

theorem getLastD_eq_of_getLast? {α : Type} {s slast : α} {ss : List α}
    (h : (s :: ss).getLast? = some slast) : ss.getLastD s = slast := by
  rw [List.getLast?_cons] at h
  injection h with h
  rw [List.getLastD_eq_getLast?]
  exact h

/-! ## C7: guard page, user stack, and return values of from_elf -/

/-- C7 [confirmed]: for a well-formed image whose last loadable segment is
`slast`, `from_elf` succeeds; writing `g` for the end page of `slast`
(the highest mapped page is `g - 1`), the page `g` is covered by no area
and is not the trampoline page (the one unmapped guard page), the page
`g - 1` is mapped by a loadable area, and directly above the guard sits a
`Framed`, user-accessible, read+write stack area of exactly
`USER_STACK_SIZE` bytes; the returned second component is that stack's top
address and the third is the image's entry point. -/
theorem c7_from_elf_guard_and_stack (elf : ElfImage) (slast : LoadSegment)
    (hwf : elf.WellFormed) (hlast : elf.segments.getLast? = some slast) :
    ∃ ms,
      MemorySet.from_elf elf =
        some (ms, VirtAddr.of_vpn (segEndVpn slast) + PAGE_SIZE + USER_STACK_SIZE,
          elf.entry_point) ∧
      (∀ a ∈ ms.areas, ¬ (a.startVpn ≤ segEndVpn slast ∧ segEndVpn slast < a.endVpn)) ∧
      (∀ tp fl, ms.trampoline = some (tp, fl) → tp ≠ segEndVpn slast) ∧
      (∃ a ∈ ms.areas, a.startVpn ≤ segEndVpn slast - 1 ∧
        segEndVpn slast - 1 < a.endVpn ∧ a.map_type = MapType.Framed) ∧
      (∃ sa ∈ ms.areas, sa.startVpn = segEndVpn slast + 1 ∧
        sa.endVpn = segEndVpn slast + 1 + USER_STACK_SIZE / PAGE_SIZE ∧
        sa.map_type = MapType.Framed ∧
        sa.map_perm = (MapPermission.R ||| MapPermission.W) ||| MapPermission.U) := by
  obtain ⟨hne, hlt, hch, hbound⟩ := hwf
  obtain ⟨s, ss, hseg⟩ : ∃ s ss, elf.segments = s :: ss := by
    cases hs : elf.segments with
    | nil => exact absurd hs hne
    | cons a l => exact ⟨a, l, rfl⟩
  rw [hseg] at hlt hch hbound hlast
  have hgl : ss.getLastD s = slast := getLastD_eq_of_getLast? hlast
  have hmem : slast ∈ s :: ss := by
    have hx : slast ∈ (s :: ss).getLast? := Option.mem_def.mpr hlast
    obtain ⟨hne', heq'⟩ := List.mem_getLast?_eq_getLast hx
    rw [heq']
    exact List.getLast_mem hne'
  have htcfl : VirtAddr.floor (VirtAddr.from_usize TRAP_CONTEXT) = 134217726 := by decide
  have hb : segEndVpn slast + 3 ≤ 134217726 := by
    have := hbound slast hmem
    rw [htcfl] at this
    exact this
  have hglast : 1 ≤ segEndVpn slast := by
    have := hlt slast hmem
    omega
  have hof : VirtAddr.of_vpn (segEndVpn slast) = segEndVpn slast * 4096 := by
    rw [VirtAddr.of_vpn, shiftLeft_eq_mul]
    norm_num [PAGE_SIZE_BITS]
  have h39 : (2 : Nat) ^ 39 = 549755813888 := by norm_num
  have hsb_lt : VirtAddr.of_vpn (segEndVpn slast) + PAGE_SIZE < 2 ^ 39 := by
    rw [hof, h39]
    simp only [PAGE_SIZE]
    omega
  have hst_lt : VirtAddr.of_vpn (segEndVpn slast) + PAGE_SIZE + USER_STACK_SIZE < 2 ^ 39 := by
    rw [hof, h39]
    simp only [PAGE_SIZE, USER_STACK_SIZE]
    omega
  have hfl : VirtAddr.floor (VirtAddr.of_vpn (segEndVpn slast) + PAGE_SIZE) =
      segEndVpn slast + 1 := by
    rw [VirtAddr.floor, hof]
    simp only [PAGE_SIZE]
    omega
  have hcl : VirtAddr.ceil (VirtAddr.of_vpn (segEndVpn slast) + PAGE_SIZE +
      USER_STACK_SIZE) = segEndVpn slast + 3 := by
    rw [VirtAddr.ceil, hof]
    simp only [PAGE_SIZE, USER_STACK_SIZE]
    omega
  have hstack : MapArea.new
      (VirtAddr.from_usize (VirtAddr.of_vpn (segEndVpn slast) + PAGE_SIZE))
      (VirtAddr.from_usize (VirtAddr.of_vpn (segEndVpn slast) + PAGE_SIZE + USER_STACK_SIZE))
      MapType.Framed ((MapPermission.R ||| MapPermission.W) ||| MapPermission.U) =
      some ⟨segEndVpn slast + 1, segEndVpn slast + 3, MapType.Framed,
        (MapPermission.R ||| MapPermission.W) ||| MapPermission.U⟩ := by
    rw [va_from_usize_eq_of_lt hsb_lt, va_from_usize_eq_of_lt hst_lt]
    rw [MapArea.new, hfl, hcl, if_pos (by omega)]
  have htrap : MapArea.new (VirtAddr.from_usize TRAP_CONTEXT)
      (VirtAddr.from_usize TRAMPOLINE) MapType.Framed
      (MapPermission.R ||| MapPermission.W) =
      some ⟨134217726, 134217727, MapType.Framed,
        MapPermission.R ||| MapPermission.W⟩ := by decide
  have htrfl : VirtAddr.floor (VirtAddr.from_usize TRAMPOLINE) = 134217727 := by decide
  have hload := loadAreas_spec ss s 0 hlt
  rw [hgl] at hload
  have hfe : MemorySet.from_elf elf =
      some (⟨(s :: ss).map segArea ++
          [⟨segEndVpn slast + 1, segEndVpn slast + 3, MapType.Framed,
            (MapPermission.R ||| MapPermission.W) ||| MapPermission.U⟩,
          ⟨134217726, 134217727, MapType.Framed, MapPermission.R ||| MapPermission.W⟩],
          some (134217727, PTEFlags.R ||| PTEFlags.X)⟩,
        VirtAddr.of_vpn (segEndVpn slast) + PAGE_SIZE + USER_STACK_SIZE,
        elf.entry_point) := by
    unfold MemorySet.from_elf
    rw [hseg, hload]
    dsimp only
    rw [hstack]
    dsimp only
    rw [htrap]
    dsimp only
    rw [htrfl]
  refine ⟨_, hfe, ?_, ?_, ?_, ?_⟩
  · intro a ha
    dsimp only at ha
    rcases List.mem_append.mp ha with hl | hr
    · obtain ⟨t, ht, hat⟩ := List.mem_map.mp hl
      have hend : segEndVpn t ≤ segEndVpn slast := by
        have := chain_end_le_last ss s hlt hch t ht
        rw [hgl] at this
        exact this
      rw [← hat]
      simp only [segArea]
      intro hc
      omega
    · rcases List.mem_cons.mp hr with h1 | h1
      · rw [h1]
        dsimp only
        intro hc
        omega
      · rcases List.mem_cons.mp h1 with h2 | h2
        · rw [h2]
          dsimp only
          intro hc
          omega
        · exact absurd h2 (by simp)
  · intro tp fl htp
    dsimp only at htp
    injection htp with htp
    injection htp with htp1 _
    omega
  · refine ⟨segArea slast, ?_, ?_, ?_, rfl⟩
    · dsimp only
      exact List.mem_append.mpr (Or.inl (List.mem_map_of_mem segArea hmem))
    · simp only [segArea]
      have := hlt slast hmem
      omega
    · simp only [segArea]
      omega
  · refine ⟨⟨segEndVpn slast + 1, segEndVpn slast + 3, MapType.Framed,
      (MapPermission.R ||| MapPermission.W) ||| MapPermission.U⟩, ?_, rfl, ?_, rfl, rfl⟩
    · dsimp only
      exact List.mem_append.mpr (Or.inr (List.mem_cons_self _ _))
    · norm_num [USER_STACK_SIZE, PAGE_SIZE]

/-- A one-segment image: `R+X` code at `[0x1000, 0x2000)`, entry `0x1000`. -/
def segC7 : LoadSegment := ⟨4096, 4096, true, false, true⟩

/-- The image used as concrete witness input. -/
def elfC7 : ElfImage := ⟨[segC7], 4096⟩

theorem elfC7_wellFormed : ElfImage.WellFormed elfC7 := by
  refine ⟨by simp [elfC7], ?_, ?_, ?_⟩
  · intro t ht
    simp only [elfC7, List.mem_singleton] at ht
    subst ht
    decide
  · exact List.chain'_singleton _
  · intro t ht
    simp only [elfC7, List.mem_singleton] at ht
    subst ht
    decide

/-- Witness for `c7_from_elf_guard_and_stack` on the one-segment image
`elfC7` (code ends at page 2, the guard is page 2, the stack covers pages
3 and 4, and the stack top `0x5000` is returned). -/
theorem c7_from_elf_guard_and_stack_witness :
    ElfImage.WellFormed elfC7 ∧ elfC7.segments.getLast? = some segC7 ∧
    ∃ ms, MemorySet.from_elf elfC7 =
      some (ms, VirtAddr.of_vpn (segEndVpn segC7) + PAGE_SIZE + USER_STACK_SIZE,
        elfC7.entry_point) ∧
      (∀ a ∈ ms.areas, ¬ (a.startVpn ≤ segEndVpn segC7 ∧ segEndVpn segC7 < a.endVpn)) ∧
      (∃ sa ∈ ms.areas, sa.startVpn = segEndVpn segC7 + 1 ∧
        sa.endVpn = segEndVpn segC7 + 1 + USER_STACK_SIZE / PAGE_SIZE ∧
        sa.map_type = MapType.Framed ∧
        sa.map_perm = (MapPermission.R ||| MapPermission.W) ||| MapPermission.U) := by
  refine ⟨elfC7_wellFormed, rfl, ?_⟩
  obtain ⟨ms, h1, h2, _, _, h5⟩ :=
    c7_from_elf_guard_and_stack elfC7 segC7 elfC7_wellFormed rfl
  exact ⟨ms, h1, h2, h5⟩

/-! ## C10: trampoline and trap context are not user-accessible -/

theorem loadAreas_have_user :
    ∀ (ss : List LoadSegment) (mev0 : Nat) (las : List MapArea) (mev : Nat),
    loadAreas ss mev0 = some (las, mev) →
    ∀ a ∈ las, Nat.testBit a.map_perm 4 = true := by
  intro ss
  induction ss with
  | nil =>
    intro mev0 las mev h a ha
    rw [loadAreas] at h
    injection h with h
    injection h with h1 _
    rw [← h1] at ha
    exact absurd ha (by simp)
  | cons s ts ih =>
    intro mev0 las mev h a ha
    rw [loadAreas] at h
    split at h
    case h_1 => exact absurd h (by simp)
    case h_2 area harea =>
      split at h
      case h_1 => exact absurd h (by simp)
      case h_2 rest mev2 hrest =>
        injection h with h
        injection h with h1 h2
        rw [← h1] at ha
        rcases List.mem_cons.mp ha with hh | hh
        · obtain ⟨haeq, _⟩ := MapArea.new_some harea
          rw [hh, haeq]
          show Nat.testBit (segPerm s) 4 = true
          have hU : Nat.testBit MapPermission.U 4 = true := by decide
          simp [segPerm, Nat.testBit_lor, hU]
        · exact ih _ rest mev2 hrest a hh

/-- C10 [confirmed]: in every address space `from_elf` constructs, the
trampoline page is mapped `R | X` and the trap-context area is `R | W` —
neither carries the `U` bit (bit 4), so neither page is accessible from
user mode — while every loadable-segment area and the user-stack area do
carry `U`. -/
theorem c10_trampoline_trap_context_not_user (elf : ElfImage) (ms : MemorySet)
    (ust ent : Nat) (h : MemorySet.from_elf elf = some (ms, ust, ent)) :
    ∃ la sa ta,
      ms.areas = la ++ [sa, ta] ∧
      ms.trampoline = some (VirtAddr.floor (VirtAddr.from_usize TRAMPOLINE),
        PTEFlags.R ||| PTEFlags.X) ∧
      Nat.testBit (PTEFlags.R ||| PTEFlags.X) 4 = false ∧
      (∀ a ∈ la, Nat.testBit a.map_perm 4 = true) ∧
      Nat.testBit sa.map_perm 4 = true ∧
      sa.map_perm = (MapPermission.R ||| MapPermission.W) ||| MapPermission.U ∧
      Nat.testBit ta.map_perm 4 = false ∧
      ta.map_perm = MapPermission.R ||| MapPermission.W := by
  obtain ⟨las, mev, sa, ta, hla, hsa, hta, hms, _, _⟩ := from_elf_structure elf ms ust ent h
  obtain ⟨hsaeq, _⟩ := MapArea.new_some hsa
  obtain ⟨htaeq, _⟩ := MapArea.new_some hta
  have hsperm : sa.map_perm = (MapPermission.R ||| MapPermission.W) ||| MapPermission.U := by
    rw [hsaeq]
  have htperm : ta.map_perm = MapPermission.R ||| MapPermission.W := by
    rw [htaeq]
  refine ⟨las, sa, ta, by rw [hms], by rw [hms], by decide,
    loadAreas_have_user elf.segments 0 las mev hla, ?_, hsperm, ?_, htperm⟩
  · rw [hsperm]
    decide
  · rw [htperm]
    decide

/-- Witness for `c10_trampoline_trap_context_not_user` on `elfC7`. -/
theorem c10_trampoline_trap_context_not_user_witness :
    ∃ r, MemorySet.from_elf elfC7 = some r ∧
      ∃ la sa ta,
        r.1.areas = la ++ [sa, ta] ∧
        r.1.trampoline = some (VirtAddr.floor (VirtAddr.from_usize TRAMPOLINE),
          PTEFlags.R ||| PTEFlags.X) ∧
        Nat.testBit (PTEFlags.R ||| PTEFlags.X) 4 = false ∧
        (∀ a ∈ la, Nat.testBit a.map_perm 4 = true) ∧
        Nat.testBit sa.map_perm 4 = true ∧
        Nat.testBit ta.map_perm 4 = false := by
  obtain ⟨r, hr⟩ : ∃ r, MemorySet.from_elf elfC7 = some r := ⟨_, rfl⟩
  obtain ⟨la, sa, ta, h1, h2, h3, h4, h5, _, h7, _⟩ :=
    c10_trampoline_trap_context_not_user elfC7 r.1 r.2.1 r.2.2 (by rw [hr])
  exact ⟨r, hr, la, sa, ta, h1, h2, h3, h4, h5, h7⟩

end Apollo
